import Mathlib

/-!
# CarND-MPC-Project: the telemetry handler of `src/main.cpp`

A shallow embedding of `hasData`, `polyeval`, `polyfit` and the `onMessage`
lambda of `main`, followed by the properties established about them.

Conventions of the embedding.

* A `std::string` is a `List Char`, one element per `char` of the C++ string.
* `size_t` values are natural numbers below `2 ^ 64`; the one place where the
  source subtracts two of them (`b2 - b1 + 2` in `hasData`) is reduced modulo
  `2 ^ 64` explicitly.  `string::npos` is `none`.
* `double` is an arbitrary linearly ordered field `K` (the rationals when a
  value is computed, the reals when `cos`, `sin`, `atan` are the real ones).
* A C++ exception, a failed `assert` or an out-of-range read is `none`.
* Library code that the handler calls but that is not part of `main.cpp`
  (`cos`, `sin`, `atan`, Eigen's `householderQr().solve`, `MPC::Solve`,
  `json::parse`) is a parameter of the definitions that use it.
-/

namespace MPC

/-! ## Strings -/

/-- The number of values of a `size_t`, `string::npos + 1`. -/
def sizeModulus : Nat := 2 ^ 64

/-- The pattern searched by `s.find("null")`. -/
def nullPat : List Char := ['n', 'u', 'l', 'l']

/-- The pattern searched by `s.rfind("}]")`. -/
def closePat : List Char := ['}', ']']

/-- The reply of the manual-driving branch, `42["manual",{}]`. -/
def manualMsg : List Char :=
  ['4', '2', '[', '"', 'm', 'a', 'n', 'u', 'a', 'l', '"', ',', '{', '}', ']']

/-- The event name compared against in `event == "telemetry"`. -/
def telemetryName : List Char := ['t', 'e', 'l', 'e', 'm', 'e', 't', 'r', 'y']

/-- The method `std::string::find(pat)`: the least position at which `pat` occurs in the
string, `none` for `npos`. -/
def find (pat : List Char) : List Char → Option Nat
  | [] => if pat.isEmpty then some 0 else none
  | c :: cs =>
    if pat.isPrefixOf (c :: cs) then some 0
    else (find pat cs).map (· + 1)

/-- The method `std::string::find_first_of(set)`: the least position holding a character
of `set`, `none` for `npos`. -/
def find_first_of (set : List Char) : List Char → Option Nat
  | [] => none
  | c :: cs =>
    if set.contains c then some 0
    else (find_first_of set cs).map (· + 1)

/-- The method `std::string::rfind(pat)`: the greatest position at which `pat` occurs in
the string, `none` for `npos`. -/
def rfind (pat : List Char) : List Char → Option Nat
  | [] => if pat.isEmpty then some 0 else none
  | c :: cs =>
    match rfind pat cs with
    | some i => some (i + 1)
    | none => if pat.isPrefixOf (c :: cs) then some 0 else none

/-- The method `std::string::substr(pos, count)`: throws `out_of_range` when
`pos > size()`, otherwise the characters `[pos, min (pos + count) size)`. -/
def substr (s : List Char) (pos count : Nat) : Option (List Char) :=
  if pos > s.length then none else some ((s.drop pos).take count)

/-- The function `hasData` of `main.cpp`.  The length argument `b2 - b1 + 2` is computed in
`size_t`, hence modulo `2 ^ 64`. -/
def hasData (s : List Char) : Option (List Char) :=
  let found_null := find nullPat s
  let b1 := find_first_of ['['] s
  let b2 := rfind closePat s
  if found_null ≠ none then some []
  else
    match b1, b2 with
    | some b1, some b2 => substr s b1 ((b2 + sizeModulus - b1 + 2) % sizeModulus)
    | _, _ => some []

/-! ## Numeric code

`K` stands for `double`. -/

section Numeric

variable {K : Type} [LinearOrderedField K]

/-- The function `polyeval` of `main.cpp`: the loop `result += coeffs[i] * pow(x, i)` over
`i = 0 .. coeffs.size() - 1`, starting from `result = 0.0`. -/
def polyeval {n : Nat} (coeffs : Fin n → K) (x : K) : K :=
  (List.finRange n).foldl (fun result i => result + coeffs i * x ^ (i : Nat)) 0

/-- The type of Eigen's `A.householderQr().solve(y)` for an `m × k` matrix. -/
abbrev QRSolve (K : Type) : Type :=
  (m k : Nat) → Matrix (Fin m) (Fin k) K → (Fin m → K) → (Fin k → K)

/-- One row of the matrix `A` of `polyfit`: `A(j, 0) = 1.0` and
`A(j, i + 1) = A(j, i) * xvals(j)`. -/
def designEntry (x : K) : Nat → K
  | 0 => 1
  | i + 1 => designEntry x i * x

/-- The matrix `A` that `polyfit` fills, of size `xvals.size() × (order + 1)`. -/
def designMatrix {n : Nat} (xvals : Fin n → K) (order : Nat) :
    Matrix (Fin n) (Fin (order + 1)) K :=
  fun j i => designEntry (xvals j) i

/-- The function `polyfit` of `main.cpp`.  Both vectors have the same size `n` (the first
`assert`); the second `assert` is the guard, and a failed `assert` is `none`.
The QR solve is Eigen's and is the parameter `solve`. -/
def polyfit (solve : QRSolve K) {n : Nat} (xvals yvals : Fin n → K) (order : Nat) :
    Option (Fin (order + 1) → K) :=
  if 1 ≤ order ∧ (order : Int) ≤ (n : Int) - 1 then
    some (solve n (order + 1) (designMatrix xvals order) yvals)
  else none

/-- The vehicle-frame abscissa computed in the waypoint loop:
`(x_p - px) * cos(psi) + (y_p - py) * sin(psi)`. -/
def toVehicleX (cosf sinf : K → K) (px py psi x_p y_p : K) : K :=
  (x_p - px) * cosf psi + (y_p - py) * sinf psi

/-- The vehicle-frame ordinate computed in the waypoint loop:
`(y_p - py) * cos(psi) - (x_p - px) * sin(psi)`. -/
def toVehicleY (cosf sinf : K → K) (px py psi x_p y_p : K) : K :=
  (y_p - py) * cosf psi - (x_p - px) * sinf psi

/-- The handler's `cte = polyeval(coeffs, 0) - 0`. -/
def crossTrackError (coeffs : Fin 4 → K) : K :=
  polyeval coeffs 0 - 0

/-- The handler's `epsi = -atan(coeffs[1])`. -/
def headingError (atanf : K → K) (coeffs : Fin 4 → K) : K :=
  - atanf (coeffs 1)

/-- The library functions the telemetry branch calls. -/
structure Env (K : Type) where
  /-- the function `cos` of `math.h` -/
  cos : K → K
  /-- the function `sin` of `math.h` -/
  sin : K → K
  /-- the function `atan` of `math.h` -/
  atan : K → K
  /-- Eigen's `householderQr().solve` -/
  qrSolve : QRSolve K
  /-- the method `MPC::Solve(state, coeffs)` of `MPC.h`, returning `vector<double>` -/
  mpcSolve : (Fin 6 → K) → (Fin 4 → K) → List K

/-- The fields of `j[1]` that the telemetry branch reads. -/
structure Telemetry (K : Type) where
  /-- the field `j[1]["ptsx"]` -/
  ptsx : List K
  /-- the field `j[1]["ptsy"]` -/
  ptsy : List K
  /-- the field `j[1]["x"]` -/
  px : K
  /-- the field `j[1]["y"]` -/
  py : K
  /-- the field `j[1]["psi"]` -/
  psi : K
  /-- the field `j[1]["speed"]` -/
  v : K

/-- The object `msgJson` sent inside the `steer` event. -/
structure SteerJson (K : Type) where
  /-- the entry `msgJson["steering_angle"]` -/
  steering_angle : K
  /-- the entry `msgJson["throttle"]` -/
  throttle : K
  /-- the entry `msgJson["mpc_x"]` -/
  mpc_x : List K
  /-- the entry `msgJson["mpc_y"]` -/
  mpc_y : List K
  /-- the entry `msgJson["next_x"]` -/
  next_x : List K
  /-- the entry `msgJson["next_y"]` -/
  next_y : List K

/-- What `ws.send` is given: the literal text of the manual branch, or the
`steer` event around `msgJson` (the decimal rendering of `dump()` is not
modelled). -/
inductive Reply (K : Type) where
  | text (msg : List Char)
  | steer (msgJson : SteerJson K)

/-- The variables of `main` that the lambda captures by reference and that
live across calls (`mpc` has no state visible from `main.cpp`). -/
structure Session (K : Type) where
  /-- the variable `bool initialized` -/
  initialized : Bool
  /-- the variable `Eigen::VectorXd state(6)` -/
  state : Fin 6 → K

/-- The value of the captured variables when `main` registers the handler:
`initialized = false`, `state.fill(0.0)`. -/
def Session.initial : Session K :=
  { initialized := false, state := fun _ => 0 }

/-- The observable effect of one call of the handler. -/
structure Step (K : Type) where
  /-- the captured variables after the call -/
  session : Session K
  /-- the arguments of `mpc.Solve` when it was called -/
  solveArgs : Option ((Fin 6 → K) × (Fin 4 → K))
  /-- the message given to `ws.send`, if any -/
  sent : Option (Reply K)

/-- The display loop `for (i = start; i < vars.size(); i += 2)` run on the
tail of `vars` from `start = 8`: it reads `vars[i]` and `vars[i + 1]`, the
latter out of range when one element is left. -/
def mpcPoints : List K → Option (List K × List K)
  | [] => some ([], [])
  | [_] => none
  | a :: b :: rest => (mpcPoints rest).map fun p => (a :: p.1, b :: p.2)

/-- The vector `x_ptrs` after the waypoint loop.  The loop runs over
`i < ptsx.size()` and reads `ptsy[i]`; `h` says that read is in range. -/
def x_ptrs (env : Env K) (t : Telemetry K) (h : t.ptsy.length = t.ptsx.length) :
    Fin t.ptsx.length → K := fun i =>
  toVehicleX env.cos env.sin t.px t.py t.psi (t.ptsx.get i) (t.ptsy.get (i.cast h.symm))

/-- The vector `y_ptrs` after the waypoint loop. -/
def y_ptrs (env : Env K) (t : Telemetry K) (h : t.ptsy.length = t.ptsx.length) :
    Fin t.ptsx.length → K := fun i =>
  toVehicleY env.cos env.sin t.px t.py t.psi (t.ptsx.get i) (t.ptsy.get (i.cast h.symm))

/-- The body of the `event == "telemetry"` branch of the handler.  When
`ptsy` and `ptsx` differ in size the loop reads out of range or `polyfit`'s
first `assert` fails; `x_ptrs(0)` is an Eigen index assertion. -/
def onTelemetry (env : Env K) (sess : Session K) (t : Telemetry K) : Option (Step K) :=
  if h : t.ptsy.length = t.ptsx.length then
    match polyfit env.qrSolve (x_ptrs env t h) (y_ptrs env t h) 3 with
    | none => none
    | some coeffs =>
      if h0 : 0 < t.ptsx.length then
        let cte := crossTrackError coeffs
        let epsi := headingError env.atan coeffs
        let state : Fin 6 → K :=
          ![x_ptrs env t h ⟨0, h0⟩, y_ptrs env t h ⟨0, h0⟩, t.psi, t.v, cte, epsi]
        let vars := env.mpcSolve state coeffs
        do
          let v6 ← vars.get? 6
          let steer_value := - v6
          let throttle_value ← vars.get? 7
          let mpc ← mpcPoints (vars.drop 8)
          let next_x_vals := List.ofFn (x_ptrs env t h)
          let next_y_vals := List.ofFn (y_ptrs env t h)
          let v0 ← vars.get? 0
          let v1 ← vars.get? 1
          let v2 ← vars.get? 2
          let v3 ← vars.get? 3
          let v4 ← vars.get? 4
          let v5 ← vars.get? 5
          pure {
            session := { initialized := sess.initialized, state := ![v0, v1, v2, v3, v4, v5] }
            solveArgs := some (state, coeffs)
            sent := some (Reply.steer {
              steering_angle := steer_value
              throttle := throttle_value
              mpc_x := 0 :: mpc.1
              mpc_y := 0 :: mpc.2
              next_x := next_x_vals
              next_y := next_y_vals }) }
      else none
  else none

/-- The `msgJson` of a reply, when the reply is a `steer` event. -/
def Reply.steerJson : Reply K → Option (SteerJson K)
  | Reply.text _ => none
  | Reply.steer msgJson => some msgJson

/-- The state vector given to `mpc.Solve` in a call, if it was called. -/
def Step.solveState (r : Step K) : Option (Fin 6 → K) :=
  r.solveArgs.map (·.1)

/-- The `msgJson` sent by a call, if it sent a `steer` event. -/
def Step.steerJson (r : Step K) : Option (SteerJson K) :=
  r.sent.bind Reply.steerJson

/-- What the handler uses of `json::parse(s)`: `j[0].get<string>()` and the
fields of `j[1]`, absent when one of the reads of the telemetry branch would
throw. -/
structure Parsed (K : Type) where
  /-- the value `j[0].get<string>()` -/
  event : List Char
  /-- the fields read from `j[1]` -/
  data : Option (Telemetry K)

/-- The `onMessage` lambda of `main`.  `parse` is `json::parse` followed by
the reads of `j`; `none` from it is the exception nlohmann throws. -/
def onMessage (env : Env K) (parse : List Char → Option (Parsed K)) (sess : Session K)
    (sdata : List Char) : Option (Step K) :=
  if sdata.length > 2 ∧ sdata.get? 0 = some '4' ∧ sdata.get? 1 = some '2' then
    match hasData sdata with
    | none => none
    | some s =>
      if s ≠ [] then
        match parse s with
        | none => none
        | some j =>
          if j.event = telemetryName then
            match j.data with
            | none => none
            | some t => onTelemetry env sess t
          else some { session := sess, solveArgs := none, sent := none }
      else some { session := sess, solveArgs := none, sent := some (Reply.text manualMsg) }
  else some { session := sess, solveArgs := none, sent := none }

/-- Consecutive telemetry cycles of one session: each call starts from the
captured variables the previous call left. -/
def runCycles (env : Env K) : Session K → List (Telemetry K) → Option (List (Step K))
  | _, [] => some []
  | sess, t :: ts =>
    match onTelemetry env sess t with
    | none => none
    | some step => (runCycles env step.session ts).map (step :: ·)

/-- A least-squares solver by the normal equations and Cramer's rule.  It is
not Eigen's code; it instantiates the parameter `Env.qrSolve` where a
concrete solver is needed. -/
def normalEquationsSolve : QRSolve K := fun _ _ A y i =>
  Matrix.cramer (A.transpose * A) (A.transpose.mulVec y) i / (A.transpose * A).det

/-- A stand-in for `json::parse` that reads only the event name of a payload
of the shape `["name", ...`; it is not nlohmann's code and instantiates the
parameter `parse` of `onMessage` where a concrete parser is needed. -/
def parseEventName : List Char → Option (Parsed K)
  | '[' :: '"' :: rest =>
    if rest.contains '"' then some { event := rest.takeWhile (· != '"'), data := none }
    else none
  | _ => none

/-! ## Statements of the specification -/

/-- The inverse rotation and translation named by the specification:
`x = px + x' cos(psi) - y' sin(psi)`, `y = py + x' sin(psi) + y' cos(psi)`. -/
def fromVehicle (cosf sinf : K → K) (px py psi x' y' : K) : K × K :=
  (px + x' * cosf psi - y' * sinf psi, py + x' * sinf psi + y' * cosf psi)

/-- The sum of squared residuals of `A c = y`. -/
def residual {m k : Nat} (A : Matrix (Fin m) (Fin k) K) (y : Fin m → K) (c : Fin k → K) : K :=
  ∑ j, (A.mulVec c j - y j) ^ 2

/-- The contract of a least-squares solve at one system: `c` minimises the
sum of squared residuals of `A c = y`. -/
def IsLeastSquares {m k : Nat} (A : Matrix (Fin m) (Fin k) K) (y : Fin m → K)
    (c : Fin k → K) : Prop :=
  ∀ c', residual A y c ≤ residual A y c'

/-- Modelled from the spec: the kinematic update of §4.3 (it lives in
`MPC.cpp`, which is not among the sources), applied for one interval `dt` to a
state `(x, y, psi, v, cte, epsi)` under the actuator pair `(delta, a)`. -/
def kinematicStep (cosf sinf atanf : K → K) (Lf dt : K) (coeffs : Fin 4 → K)
    (s : Fin 6 → K) (delta a : K) : Fin 6 → K :=
  let x := s 0
  let y := s 1
  let psi := s 2
  let v := s 3
  let epsi := s 5
  let f := polyeval coeffs x
  let psides := atanf (coeffs 1 + 2 * coeffs 2 * x + 3 * coeffs 3 * x ^ 2)
  ![x + v * cosf psi * dt,
    y + v * sinf psi * dt,
    psi + v / Lf * delta * dt,
    v + a * dt,
    (f - y) + v * sinf epsi * dt,
    (psi - psides) + v / Lf * delta * dt]

end Numeric

/-! ### Facts about the string operations -/

theorem find_eq_none_iff (pat s : List Char) : find pat s = none ↔ ¬ pat <:+: s := by
  induction s with
  | nil =>
    cases pat with
    | nil => simp [find]
    | cons a as => simp [find]
  | cons c cs ih =>
    unfold find
    by_cases hp : pat.isPrefixOf (c :: cs) = true
    · have hp2 : pat <+: c :: cs := List.isPrefixOf_iff_prefix.mp hp
      simp [hp, hp2.isInfix]
    · have hp2 : ¬ pat <+: c :: cs := fun h => hp (List.isPrefixOf_iff_prefix.mpr h)
      simp only [hp, Bool.false_eq_true, if_false, Option.map_eq_none', ih,
        List.infix_cons_iff, not_or, hp2, not_false_eq_true, true_and]

theorem rfind_eq_none_iff (pat s : List Char) : rfind pat s = none ↔ ¬ pat <:+: s := by
  induction s with
  | nil =>
    cases pat with
    | nil => simp [rfind]
    | cons a as => simp [rfind]
  | cons c cs ih =>
    unfold rfind
    cases hr : rfind pat cs with
    | some i =>
      have : pat <:+: cs := by
        by_contra hcon
        rw [ih.mpr hcon] at hr
        cases hr
      simp [List.infix_cons_iff, this]
    | none =>
      have hcs : ¬ pat <:+: cs := ih.mp hr
      by_cases hp : pat.isPrefixOf (c :: cs) = true
      · have hp2 : pat <+: c :: cs := List.isPrefixOf_iff_prefix.mp hp
        simp [hp, hp2.isInfix]
      · have hp2 : ¬ pat <+: c :: cs := fun h => hp (List.isPrefixOf_iff_prefix.mpr h)
        simp [hp, List.infix_cons_iff, hp2, hcs]

theorem find_first_of_eq_none (c : Char) (s : List Char) (h : c ∉ s) :
    find_first_of [c] s = none := by
  induction s with
  | nil => rfl
  | cons a as ih =>
    have ha : ¬ a = c := fun e => h (by simp [e])
    have has : c ∉ as := fun e => h (by simp [e])
    simp [find_first_of, ha, ih has]

theorem find_first_of_append (c : Char) (pre rest : List Char) (h : c ∉ pre) :
    find_first_of [c] (pre ++ c :: rest) = some pre.length := by
  induction pre with
  | nil => simp [find_first_of]
  | cons a as ih =>
    have ha : ¬ a = c := fun e => h (by simp [e])
    have has : c ∉ as := fun e => h (by simp [e])
    simp [find_first_of, ha, ih has]

theorem rfind_append (pat pre post : List Char) (hne : pat ≠ [])
    (hlast : ¬ pat <:+: (pat ++ post).tail) :
    rfind pat (pre ++ (pat ++ post)) = some pre.length := by
  induction pre with
  | nil =>
    cases hpp : pat ++ post with
    | nil => simp [hne] at hpp
    | cons a as =>
      rw [hpp] at hlast
      have hn : rfind pat as = none := (rfind_eq_none_iff pat as).mpr hlast
      have hp : pat.isPrefixOf (a :: as) = true := by
        rw [← hpp]
        exact List.isPrefixOf_iff_prefix.mpr (List.prefix_append pat post)
      simp [rfind, hn, hp]
  | cons a as ih => simp [rfind, ih]

theorem substr_middle (pre body post : List Char) (n : Nat) (hn : n = body.length) :
    substr (pre ++ (body ++ post)) pre.length n = some body := by
  subst hn
  simp [substr]

theorem find_first_of_le (set s : List Char) (i : Nat) (h : find_first_of set s = some i) :
    i < s.length := by
  induction s generalizing i with
  | nil => simp [find_first_of] at h
  | cons a as ih =>
    unfold find_first_of at h
    split at h
    · cases h; simp
    · cases hr : find_first_of set as with
      | none => simp [hr] at h
      | some k =>
        have := ih k hr
        simp [hr] at h
        subst h
        simpa using this

theorem hasData_ne_none (s : List Char) : hasData s ≠ none := by
  unfold hasData
  simp only []
  split
  · simp
  · split
    · rename_i b1 b2 h1 _
      have := find_first_of_le _ _ _ h1
      simp [substr]
      omega
    · simp

/-- C10. The message `42}] [a` passes the handler's `42` guard, has no
`null`, has a `[` and has a `}]`, but its last `}]` lies before its first `[`:
`b2 - b1 + 2` wraps around in `size_t` and `hasData` returns `[a`, which is
not empty and does not end with `}]`. -/
theorem hasData_wraparound_failing_input :
    (['4', '2', '}', ']', ' ', '[', 'a'].length > 2 ∧ ['4', '2', '}', ']', ' ', '[', 'a'].get? 0 = some '4' ∧ ['4', '2', '}', ']', ' ', '[', 'a'].get? 1 = some '2') ∧
    ¬ nullPat <:+: ['4', '2', '}', ']', ' ', '[', 'a'] ∧
    find_first_of ['['] ['4', '2', '}', ']', ' ', '[', 'a'] = some 5 ∧
    rfind closePat ['4', '2', '}', ']', ' ', '[', 'a'] = some 2 ∧
    (2 + sizeModulus - 5 + 2) % sizeModulus = sizeModulus - 1 ∧
    hasData ['4', '2', '}', ']', ' ', '[', 'a'] = some ['[', 'a'] ∧
    ['[', 'a'] ≠ [] ∧
    ¬ closePat <:+ ['[', 'a'] := by
  decide

/-- Where `hasData` keeps its docstring: it never throws; for a string
shorter than `2 ^ 64` it returns the empty string when the string contains
`null`, or no `[`, or no `}]`; and when the string has no `null` and its last
`}]` starts after its first `[`, it returns the substring from that `[`
through that `}]`. -/
theorem hasData_payload (s : List Char) (hlen : s.length < sizeModulus) :
    hasData s ≠ none ∧
    ((nullPat <:+: s ∨ '[' ∉ s ∨ ¬ closePat <:+: s) → hasData s = some []) ∧
    (∀ pre mid post, s = pre ++ '[' :: (mid ++ (closePat ++ post)) →
      ¬ nullPat <:+: s → '[' ∉ pre → ¬ closePat <:+: (']' :: post) →
      hasData s = some ('[' :: (mid ++ closePat))) := by
  refine ⟨hasData_ne_none s, ?_, ?_⟩
  · intro h
    unfold hasData
    simp only []
    by_cases hn : nullPat <:+: s
    · have : find nullPat s ≠ none := fun e => (find_eq_none_iff _ _).mp e hn
      rw [if_pos this]
    · have hn2 : find nullPat s = none := (find_eq_none_iff _ _).mpr hn
      rw [if_neg (by simp [hn2])]
      rcases h with h | h | h
      · exact absurd h hn
      · rw [find_first_of_eq_none '[' s h]
      · rw [(rfind_eq_none_iff closePat s).mpr h]
        split
        · rename_i heq
          cases heq
        · rfl
  · intro pre mid post hs hn hpre hlast
    have hn2 : find nullPat s = none := (find_eq_none_iff _ _).mpr hn
    have hb1 : find_first_of ['['] s = some pre.length := by
      rw [hs]; exact find_first_of_append '[' pre _ hpre
    have hb2 : rfind closePat s = some (pre ++ '[' :: mid).length := by
      have e : s = (pre ++ '[' :: mid) ++ (closePat ++ post) := by rw [hs]; simp
      rw [e]
      exact rfind_append closePat _ post (by simp [closePat]) (by simpa [closePat] using hlast)
    have hl : pre.length + (mid.length + 3) ≤ s.length := by
      rw [hs]; simp [closePat]
    unfold hasData
    simp only []
    rw [if_neg (by simp [hn2]), hb1, hb2]
    simp only []
    have hcount : ((pre ++ '[' :: mid).length + sizeModulus - pre.length + 2) % sizeModulus
        = ('[' :: (mid ++ closePat)).length := by
      have e1 : (pre ++ '[' :: mid).length + sizeModulus - pre.length + 2
          = (mid.length + 3) + sizeModulus := by
        simp; omega
      rw [e1, Nat.add_mod_right, Nat.mod_eq_of_lt (by omega)]
      simp [closePat]
    have e2 : s = pre ++ (('[' :: (mid ++ closePat)) ++ post) := by rw [hs]; simp
    rw [e2]
    exact substr_middle pre _ post _ hcount

/-- The message `42["steer",{"a":1}]x` is shorter than `2 ^ 64` and its
payload is `["steer",{"a":1}]`. -/
theorem hasData_payload_witness :
    hasData ['4', '2', '[', '"', 's', 't', 'e', 'e', 'r', '"', ',', '{', '"', 'a', '"', ':', '1', '}', ']', 'x'] = some ['[', '"', 's', 't', 'e', 'e', 'r', '"', ',', '{', '"', 'a', '"', ':', '1', '}', ']'] :=
  (hasData_payload ['4', '2', '[', '"', 's', 't', 'e', 'e', 'r', '"', ',', '{', '"', 'a', '"', ':', '1', '}', ']', 'x'] (by decide)).2.2 ['4', '2'] ['"', 's', 't', 'e', 'e', 'r', '"', ',', '{', '"', 'a', '"', ':', '1'] ['x'] (by decide) (by decide)
    (by decide) (by decide)

/-! ### Facts about the numeric code -/

section NumericFacts

variable {K : Type} [LinearOrderedField K]

theorem foldl_add_eq_sum {ι : Type} (f : ι → K) (l : List ι) (init : K) :
    l.foldl (fun result i => result + f i) init = init + (l.map f).sum := by
  induction l generalizing init with
  | nil => simp
  | cons a as ih => simp [ih, add_assoc]

theorem polyeval_eq_sum {n : Nat} (coeffs : Fin n → K) (x : K) :
    polyeval coeffs x = ∑ i, coeffs i * x ^ (i : Nat) := by
  unfold polyeval
  rw [foldl_add_eq_sum (fun i => coeffs i * x ^ (i : Nat)), zero_add, Fin.sum_univ_def]

theorem polyeval_zero {n : Nat} (coeffs : Fin (n + 1) → K) :
    polyeval coeffs 0 = coeffs 0 := by
  rw [polyeval_eq_sum, Fin.sum_univ_succ]
  simp

theorem designEntry_eq_pow (x : K) (i : Nat) : designEntry x i = x ^ i := by
  induction i with
  | zero => simp [designEntry]
  | succ i ih => rw [designEntry, ih, pow_succ]

theorem designMatrix_eq_vandermonde (xs : Fin 4 → K) :
    designMatrix xs 3 = Matrix.vandermonde xs := by
  funext j i
  simp [designMatrix, designEntry_eq_pow, Matrix.vandermonde_apply]

theorem designMatrix_mulVec (xs p : Fin 4 → K) :
    (designMatrix xs 3).mulVec p = fun j => polyeval p (xs j) := by
  funext j
  rw [polyeval_eq_sum]
  simp only [Matrix.mulVec, Matrix.dotProduct, designMatrix, designEntry_eq_pow]
  exact Finset.sum_congr rfl fun i _ => mul_comm _ _

theorem residual_nonneg {m k : Nat} (A : Matrix (Fin m) (Fin k) K) (y : Fin m → K)
    (c : Fin k → K) : 0 ≤ residual A y c :=
  Finset.sum_nonneg fun _ _ => sq_nonneg _

theorem residual_eq_zero_iff {m k : Nat} (A : Matrix (Fin m) (Fin k) K) (y : Fin m → K)
    (c : Fin k → K) : residual A y c = 0 ↔ A.mulVec c = y := by
  unfold residual
  rw [Finset.sum_eq_zero_iff_of_nonneg fun _ _ => sq_nonneg _]
  constructor
  · intro h
    funext j
    have := h j (Finset.mem_univ j)
    exact sub_eq_zero.mp (pow_eq_zero_iff (two_ne_zero) |>.mp this)
  · intro h j _
    rw [h, sub_self]
    norm_num

theorem isLeastSquares_of_exact {m k : Nat} (A : Matrix (Fin m) (Fin k) K) (y : Fin m → K)
    (c : Fin k → K) (h : A.mulVec c = y) : IsLeastSquares A y c := by
  intro c'
  rw [(residual_eq_zero_iff A y c).mpr h]
  exact residual_nonneg A y c'

theorem exact_of_isLeastSquares {m k : Nat} (A : Matrix (Fin m) (Fin k) K) (y : Fin m → K)
    (c p : Fin k → K) (hp : A.mulVec p = y) (hc : IsLeastSquares A y c) : A.mulVec c = y := by
  have h := hc p
  rw [(residual_eq_zero_iff A y p).mpr hp] at h
  exact (residual_eq_zero_iff A y c).mp (le_antisymm h (residual_nonneg A y c))

theorem designMatrix_det_ne_zero (xs : Fin 4 → K) (hx : Function.Injective xs) :
    Matrix.det (designMatrix xs 3 : Matrix (Fin 4) (Fin 4) K) ≠ 0 := by
  have h := designMatrix_eq_vandermonde xs
  have h2 : (designMatrix xs 3 : Matrix (Fin 4) (Fin 4) K) = Matrix.vandermonde xs := h
  rw [h2]
  exact Matrix.det_vandermonde_ne_zero_iff.mpr hx

theorem leastSquares_unique (xs p c : Fin 4 → K) (hx : Function.Injective xs)
    (hc : IsLeastSquares (designMatrix xs 3) (fun j => polyeval p (xs j)) c) : c = p := by
  have hAc := exact_of_isLeastSquares (designMatrix xs 3) _ c p (designMatrix_mulVec xs p) hc
  have hAp := designMatrix_mulVec xs p
  have hsub : Matrix.mulVec (designMatrix xs 3 : Matrix (Fin 4) (Fin 4) K) (c - p) = 0 := by
    rw [Matrix.mulVec_sub]
    exact sub_eq_zero.mpr (hAc.trans hAp.symm)
  exact sub_eq_zero.mp (Matrix.eq_zero_of_mulVec_eq_zero (designMatrix_det_ne_zero xs hx) hsub)

theorem normalEquationsSolve_exact {m k : Nat} (A : Matrix (Fin m) (Fin k) K) (p : Fin k → K)
    (hdet : (A.transpose * A).det ≠ 0) :
    normalEquationsSolve m k A (A.mulVec p) = p := by
  funext i
  unfold normalEquationsSolve
  rw [Matrix.cramer_eq_adjugate_mulVec, Matrix.mulVec_mulVec, Matrix.mulVec_mulVec,
    Matrix.mul_assoc, Matrix.adjugate_mul, Matrix.smul_mulVec_assoc, Matrix.one_mulVec]
  simp [hdet]

theorem normalEquationsSolve_vandermonde (xs p : Fin 4 → K) (hx : Function.Injective xs) :
    normalEquationsSolve 4 4 (designMatrix xs 3) (fun j => polyeval p (xs j)) = p := by
  rw [← designMatrix_mulVec xs p]
  apply normalEquationsSolve_exact
  have hd := designMatrix_det_ne_zero xs hx
  have : Matrix.det ((designMatrix xs 3 : Matrix (Fin 4) (Fin 4) K).transpose * designMatrix xs 3)
      ≠ 0 := by
    rw [Matrix.det_mul, Matrix.det_transpose]
    exact mul_ne_zero hd hd
  exact this

/-- The shape of every successful run of the telemetry branch. -/
theorem onTelemetry_some (env : Env K) (sess : Session K) (t : Telemetry K) (step : Step K)
    (h : onTelemetry env sess t = some step) :
    ∃ (hl : t.ptsy.length = t.ptsx.length) (h0 : 0 < t.ptsx.length) (coeffs : Fin 4 → K)
      (v0 v1 v2 v3 v4 v5 v6 v7 : K) (mpc : List K × List K),
      polyfit env.qrSolve (x_ptrs env t hl) (y_ptrs env t hl) 3 = some coeffs ∧
      (env.mpcSolve ![x_ptrs env t hl ⟨0, h0⟩, y_ptrs env t hl ⟨0, h0⟩, t.psi, t.v,
          crossTrackError coeffs, headingError env.atan coeffs] coeffs).get? 6 = some v6 ∧
      (env.mpcSolve ![x_ptrs env t hl ⟨0, h0⟩, y_ptrs env t hl ⟨0, h0⟩, t.psi, t.v,
          crossTrackError coeffs, headingError env.atan coeffs] coeffs).get? 7 = some v7 ∧
      step = {
        session := { initialized := sess.initialized, state := ![v0, v1, v2, v3, v4, v5] }
        solveArgs := some (![x_ptrs env t hl ⟨0, h0⟩, y_ptrs env t hl ⟨0, h0⟩, t.psi, t.v,
          crossTrackError coeffs, headingError env.atan coeffs], coeffs)
        sent := some (Reply.steer {
          steering_angle := - v6
          throttle := v7
          mpc_x := 0 :: mpc.1
          mpc_y := 0 :: mpc.2
          next_x := List.ofFn (x_ptrs env t hl)
          next_y := List.ofFn (y_ptrs env t hl) }) } := by
  unfold onTelemetry at h
  split at h
  · rename_i hl
    split at h
    · cases h
    · rename_i coeffs hc
      split at h
      · rename_i h0
        simp only [Option.bind_eq_bind, Option.bind_eq_some, Option.pure_def,
          Option.some.injEq] at h
        obtain ⟨v6, h6, v7, h7, mpc, hm, v0, hv0, v1, hv1, v2, hv2, v3, hv3, v4, hv4,
          v5, hv5, rfl⟩ := h
        exact ⟨hl, h0, coeffs, v0, v1, v2, v3, v4, v5, v6, v7, mpc, hc, h6, h7, rfl⟩
      · cases h
  · cases h

/-- The arguments of `mpc.Solve` do not depend on the captured variables. -/
theorem onTelemetry_solveArgs (env : Env K) (sess sess' : Session K) (t : Telemetry K) :
    (onTelemetry env sess t).map Step.solveArgs
      = (onTelemetry env sess' t).map Step.solveArgs := by
  unfold onTelemetry
  split
  · split
    · rfl
    · split
      · simp only [Option.bind_eq_bind, Option.pure_def, Option.map_bind, Function.comp_def,
          Option.map_some']
      · rfl
  · rfl

/-- C1. Over the reals the waypoint loop computes
`x' = (x - px) cos psi + (y - py) sin psi`, `y' = (y - py) cos psi - (x - px) sin psi`,
and the inverse rotation and translation of the specification gives back
`(x, y)` exactly, for every pose and every `psi`. -/
theorem vehicle_frame_round_trip (px py psi x y : ℝ) :
    toVehicleX Real.cos Real.sin px py psi x y
      = (x - px) * Real.cos psi + (y - py) * Real.sin psi ∧
    toVehicleY Real.cos Real.sin px py psi x y
      = (y - py) * Real.cos psi - (x - px) * Real.sin psi ∧
    fromVehicle Real.cos Real.sin px py psi
        (toVehicleX Real.cos Real.sin px py psi x y)
        (toVehicleY Real.cos Real.sin px py psi x y) = (x, y) := by
  refine ⟨rfl, rfl, ?_⟩
  have h := Real.cos_sq_add_sin_sq psi
  unfold fromVehicle toVehicleX toVehicleY
  refine Prod.ext ?_ ?_
  · show px + ((x - px) * Real.cos psi + (y - py) * Real.sin psi) * Real.cos psi
      - ((y - py) * Real.cos psi - (x - px) * Real.sin psi) * Real.sin psi = x
    linear_combination (x - px) * h
  · show py + ((x - px) * Real.cos psi + (y - py) * Real.sin psi) * Real.sin psi
      + ((y - py) * Real.cos psi - (x - px) * Real.sin psi) * Real.cos psi = y
    linear_combination (y - py) * h

/-- C3 (as stated, refuted). On four waypoints of abscissa 1 the matrix of
`polyfit` is singular, and `polyfit` still returns a coefficient vector. -/
theorem polyfit_degenerate_counterexample :
    (polyfit normalEquationsSolve (fun _ => 1 : Fin 4 → ℚ) ![0, 1, 2, 3] 3).isSome = true ∧
    designMatrix (fun _ => 1 : Fin 4 → ℚ) 3 0 = designMatrix (fun _ => 1 : Fin 4 → ℚ) 3 1 := by
  exact ⟨by decide, rfl⟩

/-- C3 (amended). `polyfit` has no degeneracy check: on four waypoints with
one and the same abscissa the matrix it builds is singular, and it returns
whatever the QR solve yields on that matrix, never an error. -/
theorem polyfit_degenerate_returns (solve : QRSolve K) (xs ys : Fin 4 → K)
    (hx : ∀ i j, xs i = xs j) :
    Matrix.det (designMatrix xs 3 : Matrix (Fin 4) (Fin 4) K) = 0 ∧
    polyfit solve xs ys 3 = some (solve 4 4 (designMatrix xs 3) ys) := by
  constructor
  · apply Matrix.det_zero_of_row_eq (i := (0 : Fin 4)) (j := (1 : Fin 4)) (by decide)
    funext i
    show designEntry (xs 0) i = designEntry (xs 1) i
    rw [hx 0 1]
  · unfold polyfit
    rw [if_pos (by decide)]

/-- Four waypoints of abscissa 1: the matrix is singular and the fit is the
output of the solve. -/
theorem polyfit_degenerate_returns_witness :
    Matrix.det (designMatrix (fun _ => 1 : Fin 4 → ℚ) 3 : Matrix (Fin 4) (Fin 4) ℚ) = 0 ∧
    polyfit normalEquationsSolve (fun _ => 1 : Fin 4 → ℚ) ![0, 1, 2, 3] 3
      = some (normalEquationsSolve 4 4 (designMatrix (fun _ => 1 : Fin 4 → ℚ) 3) ![0, 1, 2, 3]) :=
  polyfit_degenerate_returns normalEquationsSolve (fun _ => 1) ![0, 1, 2, 3] (fun _ _ => rfl)

/-- C4. For every coefficient vector `(c0, c1, c2, c3)` the handler's
`cte = polyeval(coeffs, 0) - 0` is `c0` and its `epsi` is `-atan(c1)`; for
`(2, 1/2, 0, 0)` they are `2` and `-atan(1/2)`; and `polyeval` is the sum of
`coeffs[i] * x ^ i`, whose value at `x = 0` is `coeffs[0]`. -/
theorem cte_epsi_of_coeffs (c0 c1 c2 c3 : ℝ) :
    crossTrackError ![c0, c1, c2, c3] = c0 ∧
    headingError Real.arctan ![c0, c1, c2, c3] = - Real.arctan c1 ∧
    crossTrackError (![2, 1 / 2, 0, 0] : Fin 4 → ℝ) = 2 ∧
    headingError Real.arctan (![2, 1 / 2, 0, 0] : Fin 4 → ℝ) = - Real.arctan (1 / 2) ∧
    (∀ x : ℝ, polyeval ![c0, c1, c2, c3] x = ∑ i, ![c0, c1, c2, c3] i * x ^ (i : Nat)) ∧
    polyeval ![c0, c1, c2, c3] 0 = ![c0, c1, c2, c3] 0 := by
  refine ⟨?_, rfl, ?_, rfl, fun x => polyeval_eq_sum _ x, polyeval_zero _⟩
  · unfold crossTrackError
    rw [polyeval_zero, sub_zero]
    rfl
  · unfold crossTrackError
    rw [polyeval_zero, sub_zero]
    rfl

/-- C5 (as stated, refuted). With waypoints `(1,0) .. (4,0)`, the vehicle at
the map origin and heading `π`, the state given to `mpc.Solve` has `x = -1`
and `psi = π`, not `0`. -/
theorem solve_state_counterexample :
    ((onTelemetry (⟨Real.cos, Real.sin, Real.arctan, normalEquationsSolve,
      fun _ _ => [0, 0, 0, 0, 0, 0, 0, 2]⟩ : Env ℝ) Session.initial
        ⟨[1, 2, 3, 4], [0, 0, 0, 0], 0, 0, Real.pi, 10⟩).bind Step.solveState).map
      (fun st => (st 0, st 2)) = some (-1, Real.pi) ∧
    (-1 : ℝ) ≠ 0 ∧ Real.pi ≠ 0 := by
  refine ⟨?_, by norm_num, Real.pi_ne_zero⟩
  simp [onTelemetry, polyfit, Step.solveState, x_ptrs, toVehicleX, mpcPoints]

/-- C5 (amended). In every run of the telemetry branch that reaches
`mpc.Solve`, the state it passes is
`(x_ptrs(0), y_ptrs(0), psi, v, cte, epsi)`: the vehicle-frame coordinates of
the first waypoint, the heading and the speed of the telemetry message, and
`cte`, `epsi` computed from the coefficients `polyfit` returned for the
transformed waypoints; those coefficients are the second argument. -/
theorem solve_state_of_telemetry (env : Env K) (sess : Session K) (t : Telemetry K)
    (step : Step K) (h : onTelemetry env sess t = some step) :
    ∃ (hl : t.ptsy.length = t.ptsx.length) (h0 : 0 < t.ptsx.length) (coeffs : Fin 4 → K),
      polyfit env.qrSolve (x_ptrs env t hl) (y_ptrs env t hl) 3 = some coeffs ∧
      step.solveArgs = some
        (![toVehicleX env.cos env.sin t.px t.py t.psi (t.ptsx.get ⟨0, h0⟩)
              (t.ptsy.get ⟨0, hl ▸ h0⟩),
            toVehicleY env.cos env.sin t.px t.py t.psi (t.ptsx.get ⟨0, h0⟩)
              (t.ptsy.get ⟨0, hl ▸ h0⟩),
            t.psi, t.v, polyeval coeffs 0 - 0, - env.atan (coeffs 1)], coeffs) := by
  obtain ⟨hl, h0, coeffs, v0, v1, v2, v3, v4, v5, v6, v7, mpc, hc, -, -, rfl⟩ :=
    onTelemetry_some env sess t step h
  exact ⟨hl, h0, coeffs, hc, rfl⟩

/-- A telemetry message with four waypoints and a solution vector of eight
entries: the branch reaches `mpc.Solve` with the state described. -/
theorem solve_state_of_telemetry_witness :
    ∃ step, onTelemetry (⟨Real.cos, Real.sin, Real.arctan, normalEquationsSolve,
      fun _ _ => [0, 0, 0, 0, 0, 0, 0, 0]⟩ : Env ℝ) Session.initial ⟨[1, 2, 3, 4], [0, 0, 0, 0], 0, 0, 0, 10⟩ = some step ∧
      ∃ coeffs : Fin 4 → ℝ, step.solveArgs = some
        (![toVehicleX Real.cos Real.sin 0 0 0 1 0, toVehicleY Real.cos Real.sin 0 0 0 1 0,
            0, 10, polyeval coeffs 0 - 0, - Real.arctan (coeffs 1)], coeffs) :=
  (Option.isSome_iff_exists.mp
    (rfl : (onTelemetry (⟨Real.cos, Real.sin, Real.arctan, normalEquationsSolve,
      fun _ _ => [0, 0, 0, 0, 0, 0, 0, 0]⟩ : Env ℝ) Session.initial ⟨[1, 2, 3, 4], [0, 0, 0, 0], 0, 0, 0, 10⟩).isSome = true)).elim
    fun step h =>
      ⟨step, h,
        (solve_state_of_telemetry _ _ _ step h).elim fun _ h1 => h1.elim fun _ h2 =>
          h2.elim fun coeffs h3 => ⟨coeffs, h3.2⟩⟩

/-- C6 (as stated, refuted). When the solver returns `2` in `vars[7]` the
handler sends the throttle `2`, which is above `1`. -/
theorem throttle_counterexample :
    ((onTelemetry (⟨Real.cos, Real.sin, Real.arctan, normalEquationsSolve,
      fun _ _ => [0, 0, 0, 0, 0, 0, 0, 2]⟩ : Env ℝ) Session.initial ⟨[1, 2, 3, 4], [0, 0, 0, 0], 0, 0, 0, 10⟩).bind Step.steerJson).map
      (fun msgJson => msgJson.throttle) = some 2 ∧
    ¬ ((2 : ℝ) ≤ 1) := by
  refine ⟨?_, by norm_num⟩
  simp [onTelemetry, polyfit, Step.steerJson, Reply.steerJson, mpcPoints]

/-- C6 (amended). The throttle the handler sends is exactly the entry
`vars[7]` of the vector `mpc.Solve` returned; the handler does not clamp it,
so it lies in `[-1, 1]` exactly when `vars[7]` does. -/
theorem throttle_is_solver_entry (env : Env K) (sess : Session K) (t : Telemetry K)
    (step : Step K) (h : onTelemetry env sess t = some step) :
    ∃ (state : Fin 6 → K) (coeffs : Fin 4 → K) (msgJson : SteerJson K) (a : K),
      step.solveArgs = some (state, coeffs) ∧
      step.sent = some (Reply.steer msgJson) ∧
      (env.mpcSolve state coeffs).get? 7 = some a ∧
      msgJson.throttle = a ∧
      ((-1 ≤ msgJson.throttle ∧ msgJson.throttle ≤ 1) ↔ (-1 ≤ a ∧ a ≤ 1)) := by
  obtain ⟨hl, h0, coeffs, v0, v1, v2, v3, v4, v5, v6, v7, mpc, hc, h6, h7, rfl⟩ :=
    onTelemetry_some env sess t step h
  exact ⟨_, coeffs, _, v7, rfl, rfl, h7, rfl, Iff.rfl⟩

/-- A run whose solver returns the throttle `1/2`: the handler sends `1/2`. -/
theorem throttle_is_solver_entry_witness :
    ∃ step, onTelemetry (⟨Real.cos, Real.sin, Real.arctan, normalEquationsSolve,
      fun _ _ => [0, 0, 0, 0, 0, 0, 1 / 10, 1 / 2]⟩ : Env ℝ) Session.initial ⟨[1, 2, 3, 4], [0, 0, 0, 0], 0, 0, 0, 10⟩ = some step ∧
      ∃ msgJson : SteerJson ℝ, step.sent = some (Reply.steer msgJson) ∧
        msgJson.throttle = 1 / 2 :=
  (Option.isSome_iff_exists.mp
    (rfl : (onTelemetry (⟨Real.cos, Real.sin, Real.arctan, normalEquationsSolve,
      fun _ _ => [0, 0, 0, 0, 0, 0, 1 / 10, 1 / 2]⟩ : Env ℝ) Session.initial ⟨[1, 2, 3, 4], [0, 0, 0, 0], 0, 0, 0, 10⟩).isSome = true)).elim
    fun step h =>
      ⟨step, h,
        (throttle_is_solver_entry _ _ _ step h).elim fun _ h1 => h1.elim fun _ h2 =>
          h2.elim fun msgJson h3 => h3.elim fun a h4 =>
            ⟨msgJson, h4.2.1,
              h4.2.2.2.1.trans (Option.some.inj (h4.2.2.1 : some (1 / 2 : ℝ) = some a)).symm⟩⟩

/-- C7. In every run of the telemetry branch the `steering_angle` sent is
the negation of the entry `vars[6]` of the vector `mpc.Solve` returned, so for
every bound `m ≥ 0` with `|vars[6]| ≤ m` it lies in `[-m, m]`. -/
theorem steering_is_negated_entry (env : Env K) (sess : Session K) (t : Telemetry K)
    (step : Step K) (h : onTelemetry env sess t = some step) :
    ∃ (state : Fin 6 → K) (coeffs : Fin 4 → K) (msgJson : SteerJson K) (d : K),
      step.solveArgs = some (state, coeffs) ∧
      step.sent = some (Reply.steer msgJson) ∧
      (env.mpcSolve state coeffs).get? 6 = some d ∧
      msgJson.steering_angle = - d ∧
      ∀ m : K, 0 ≤ m → |d| ≤ m → - m ≤ msgJson.steering_angle ∧ msgJson.steering_angle ≤ m := by
  obtain ⟨hl, h0, coeffs, v0, v1, v2, v3, v4, v5, v6, v7, mpc, hc, h6, h7, rfl⟩ :=
    onTelemetry_some env sess t step h
  refine ⟨_, coeffs, _, v6, rfl, rfl, h6, rfl, ?_⟩
  intro m _ hd
  have := abs_le.mp hd
  exact ⟨neg_le_neg this.2, by simpa using neg_le_neg this.1⟩

/-- A run whose solver returns the steering `1/10`: the handler sends
`-1/10`. -/
theorem steering_is_negated_entry_witness :
    ∃ step, onTelemetry (⟨Real.cos, Real.sin, Real.arctan, normalEquationsSolve,
      fun _ _ => [0, 0, 0, 0, 0, 0, 1 / 10, 1 / 2]⟩ : Env ℝ) Session.initial ⟨[1, 2, 3, 4], [0, 0, 0, 0], 0, 0, 0, 10⟩ = some step ∧
      ∃ msgJson : SteerJson ℝ, step.sent = some (Reply.steer msgJson) ∧
        msgJson.steering_angle = - (1 / 10) :=
  (Option.isSome_iff_exists.mp
    (rfl : (onTelemetry (⟨Real.cos, Real.sin, Real.arctan, normalEquationsSolve,
      fun _ _ => [0, 0, 0, 0, 0, 0, 1 / 10, 1 / 2]⟩ : Env ℝ) Session.initial ⟨[1, 2, 3, 4], [0, 0, 0, 0], 0, 0, 0, 10⟩).isSome = true)).elim
    fun step h =>
      ⟨step, h,
        (steering_is_negated_entry _ _ _ step h).elim fun _ h1 => h1.elim fun _ h2 =>
          h2.elim fun msgJson h3 => h3.elim fun d h4 =>
            ⟨msgJson, h4.2.1,
              h4.2.2.2.1.trans
                (congrArg Neg.neg (Option.some.inj (h4.2.2.1 : some (1 / 10 : ℝ) = some d)).symm)⟩⟩

/-- C8 (as stated, refuted). The message `42["other",{}]` starts with `42`
and carries a payload naming the event `other`; the handler sends nothing in
reply. -/
theorem other_event_counterexample :
    (hasData ['4', '2', '[', '"', 'o', 't', 'h', 'e', 'r', '"', ',', '{', '}', ']']).map (fun s => (parseEventName s : Option (Parsed ℝ)).map (·.event))
      = some (some ['o', 't', 'h', 'e', 'r']) ∧
    (onMessage (⟨Real.cos, Real.sin, Real.arctan, normalEquationsSolve,
      fun _ _ => [0, 0, 0, 0, 0, 0, 1 / 10, 1 / 2]⟩ : Env ℝ) parseEventName Session.initial ['4', '2', '[', '"', 'o', 't', 'h', 'e', 'r', '"', ',', '{', '}', ']']).map (fun r => r.sent.isSome)
      = some false := by
  constructor
  · decide
  · have h : hasData ['4', '2', '[', '"', 'o', 't', 'h', 'e', 'r', '"', ',', '{', '}', ']'] = some ['[', '"', 'o', 't', 'h', 'e', 'r', '"', ',', '{', '}', ']'] := by decide
    simp [onMessage, h, parseEventName, telemetryName]

/-- C8 (amended). For a message longer than two characters that starts with
`42`: when it has no JSON payload (`hasData` returns the empty string) the
handler does not call `mpc.Solve`, leaves the captured variables as they were
and sends `42["manual",{}]`; when it has a payload whose event is not
`telemetry` the handler does not call `mpc.Solve`, leaves the captured
variables as they were and sends nothing. -/
theorem non_telemetry_reply (env : Env K) (parse : List Char → Option (Parsed K))
    (sess : Session K) (sdata : List Char)
    (hdisp : sdata.length > 2 ∧ sdata.get? 0 = some '4' ∧ sdata.get? 1 = some '2') :
    (hasData sdata = some [] →
      onMessage env parse sess sdata
        = some { session := sess, solveArgs := none, sent := some (Reply.text manualMsg) }) ∧
    (∀ s j, hasData sdata = some s → s ≠ [] → parse s = some j → j.event ≠ telemetryName →
      onMessage env parse sess sdata
        = some { session := sess, solveArgs := none, sent := none }) := by
  constructor
  · intro h
    unfold onMessage
    rw [if_pos hdisp, h]
    simp
  · intro s j h hs hp hj
    unfold onMessage
    rw [if_pos hdisp, h]
    simp only []
    rw [if_pos hs, hp]
    simp only []
    rw [if_neg hj]

/-- The message `42["telemetry",null]` (the simulator in manual mode) is
answered by `42["manual",{}]`. -/
theorem non_telemetry_reply_witness :
    onMessage (⟨Real.cos, Real.sin, Real.arctan, normalEquationsSolve,
      fun _ _ => [0, 0, 0, 0, 0, 0, 1 / 10, 1 / 2]⟩ : Env ℝ) parseEventName Session.initial ['4', '2', '[', '"', 't', 'e', 'l', 'e', 'm', 'e', 't', 'r', 'y', '"', ',', 'n', 'u', 'l', 'l', ']']
      = some { session := Session.initial, solveArgs := none,
               sent := some (Reply.text manualMsg) } :=
  (non_telemetry_reply (⟨Real.cos, Real.sin, Real.arctan, normalEquationsSolve,
      fun _ _ => [0, 0, 0, 0, 0, 0, 1 / 10, 1 / 2]⟩ : Env ℝ) parseEventName Session.initial ['4', '2', '[', '"', 't', 'e', 'l', 'e', 'm', 'e', 't', 'r', 'y', '"', ',', 'n', 'u', 'l', 'l', ']']
    (by decide)).1 (by decide)

/-- C9 (as stated, refuted). Two cycles with the same telemetry (waypoints
`(1,0) .. (4,0)`, speed 10, heading 0) and the issued command
`(-1/10, 1/2)`: the state given to `mpc.Solve` on the second cycle has
`x = 1`, as on the first, whereas the telemetry-derived state propagated
through the kinematic model for a latency of `1/10` has `x = 2`. -/
theorem latency_counterexample :
    (runCycles (⟨Real.cos, Real.sin, Real.arctan, normalEquationsSolve,
      fun _ _ => [0, 0, 0, 0, 0, 0, 1 / 10, 1 / 2]⟩ : Env ℝ) Session.initial [⟨[1, 2, 3, 4], [0, 0, 0, 0], 0, 0, 0, 10⟩, ⟨[1, 2, 3, 4], [0, 0, 0, 0], 0, 0, 0, 10⟩]).map
      (fun steps => steps.map fun r => r.solveState.map fun st => st 0)
      = some [some 1, some 1] ∧
    ((onTelemetry (⟨Real.cos, Real.sin, Real.arctan, normalEquationsSolve,
      fun _ _ => [0, 0, 0, 0, 0, 0, 1 / 10, 1 / 2]⟩ : Env ℝ) Session.initial ⟨[1, 2, 3, 4], [0, 0, 0, 0], 0, 0, 0, 10⟩).bind Step.solveArgs).map
      (fun a => kinematicStep Real.cos Real.sin Real.arctan (267 / 100) (1 / 10) a.2 a.1
        (1 / 10) (1 / 2) 0) = some 2 := by
  constructor
  · simp [runCycles, onTelemetry, polyfit, Step.solveState, x_ptrs, toVehicleX, mpcPoints]
  · simp [onTelemetry, polyfit, kinematicStep, x_ptrs, toVehicleX, mpcPoints]
    norm_num

/-- C9 (amended). On every telemetry cycle of a session, the first as well as
the later ones, the state given to `mpc.Solve` is the raw telemetry-derived
state `(x_ptrs(0), y_ptrs(0), psi, v, cte, epsi)` of that cycle's message: it
is determined by the message alone, whatever the captured variables hold
from earlier cycles, and no propagation is applied. -/
theorem cycles_use_raw_state (env : Env K) (sess : Session K) (ts : List (Telemetry K))
    (steps : List (Step K)) (h : runCycles env sess ts = some steps) :
    List.Forall₂ (fun t step =>
      (∀ sess' : Session K,
        (onTelemetry env sess' t).map Step.solveArgs = some step.solveArgs) ∧
      ∃ (hl : t.ptsy.length = t.ptsx.length) (h0 : 0 < t.ptsx.length) (coeffs : Fin 4 → K),
        polyfit env.qrSolve (x_ptrs env t hl) (y_ptrs env t hl) 3 = some coeffs ∧
        step.solveArgs = some
          (![x_ptrs env t hl ⟨0, h0⟩, y_ptrs env t hl ⟨0, h0⟩, t.psi, t.v,
              crossTrackError coeffs, headingError env.atan coeffs], coeffs)) ts steps := by
  induction ts generalizing sess steps with
  | nil =>
    simp [runCycles] at h
    subst h
    exact List.Forall₂.nil
  | cons t ts ih =>
    unfold runCycles at h
    cases hs : onTelemetry env sess t with
    | none => simp [hs] at h
    | some step =>
      rw [hs] at h
      simp only [Option.map_eq_some'] at h
      obtain ⟨rest, hrest, rfl⟩ := h
      refine List.Forall₂.cons ⟨?_, ?_⟩ (ih step.session rest hrest)
      · intro sess'
        rw [onTelemetry_solveArgs env sess' sess t, hs]
        rfl
      · obtain ⟨hl, h0, coeffs, v0, v1, v2, v3, v4, v5, v6, v7, mpc, hc, -, -, rfl⟩ :=
          onTelemetry_some env sess t step hs
        exact ⟨hl, h0, coeffs, hc, rfl⟩

/-- Two consecutive cycles of a session run to completion and give two
steps. -/
theorem cycles_use_raw_state_witness :
    ∃ steps, runCycles (⟨Real.cos, Real.sin, Real.arctan, normalEquationsSolve,
      fun _ _ => [0, 0, 0, 0, 0, 0, 1 / 10, 1 / 2]⟩ : Env ℝ) Session.initial [⟨[1, 2, 3, 4], [0, 0, 0, 0], 0, 0, 0, 10⟩, ⟨[1, 2, 3, 4], [0, 0, 0, 0], 0, 0, 0, 10⟩] = some steps ∧
      steps.length = 2 :=
  (Option.isSome_iff_exists.mp
    (rfl : (runCycles (⟨Real.cos, Real.sin, Real.arctan, normalEquationsSolve,
      fun _ _ => [0, 0, 0, 0, 0, 0, 1 / 10, 1 / 2]⟩ : Env ℝ) Session.initial [⟨[1, 2, 3, 4], [0, 0, 0, 0], 0, 0, 0, 10⟩, ⟨[1, 2, 3, 4], [0, 0, 0, 0], 0, 0, 0, 10⟩]).isSome = true)).elim
    fun steps h => ⟨steps, h, (cycles_use_raw_state _ _ _ steps h).length_eq.symm⟩

end NumericFacts

end MPC
